import Mathlib

/-!
Verification development for the `goose` dependency-injection planner and
code generator (package `internal/goose`, file `goose.go`).

The embedding below translates the core of `goose.go` into Lean:

* `types.Type` identity keys become `Typ := Nat` (the solver and merge only
  ever compare types with `types.Identical`, an equivalence used as identity;
  `typeutil.Map` becomes an association list keyed by `Typ`).
* `providerInfo`, `call`, `providerSetRef`, `providerSet` mirror the Go
  structs of the same names.
* `buildProviderMap` (goose.go:530-576), a breadth-first worklist loop, is
  embedded as the fuel-indexed `buildProviderMapFuel`; `none` means the fuel
  ran out (the loop in Go has no fuel; termination is proved separately).
* `solve` (goose.go:453-528) with its recursive `visit` closure is embedded
  as the fuel-indexed `visit`/`solve`, threading the mutated `index` map and
  `calls` slice explicitly.
* The generator `gen` (goose.go:90-245) and `gen.inject` (goose.go:130-216)
  are embedded as `Gen`/`injectCore`; the `bytes.Buffer` becomes an
  accumulated `String`, and the two mutable fields `imports`/`n` are threaded
  explicitly.  Type rendering `types.TypeString` belongs to the external
  front end (go/types); it is modelled by a `TypInfo` environment giving each
  `Typ` an optional defining package and a name.
* `zeroValue` (goose.go:690-713) is embedded over the structural category of
  a type's underlying type (`GoUnderlying`); `none` models the `panic`.
-/

/-- Identity key for a Go type (`types.Type` compared with `types.Identical`). -/
abbrev Typ := Nat

/-- Shallow embedding of `typeutil.Map`: an association list keyed by `Typ`. -/
abbrev TypeMap (α : Type) := List (Typ × α)

/-- `typeutil.Map.At`: first binding for the key, if any. -/
def tmAt {α : Type} : TypeMap α → Typ → Option α
  | [], _ => none
  | (k, v) :: rest, t => if t = k then some v else tmAt rest t

/-- `typeutil.Map.Set`: replace an existing binding or append a new one. -/
def tmSet {α : Type} : TypeMap α → Typ → α → TypeMap α
  | [], k, v => [(k, v)]
  | (k', v') :: rest, k, v =>
      if k = k' then (k, v) :: rest else (k', v') :: tmSet rest k v

/-- A parsed reference to a provider set (`providerSetRef` in goose.go). -/
structure ProviderSetRef where
  importPath : String
  name : String
deriving DecidableEq

/-- The signature of a provider function (`providerInfo` in goose.go).
`pos` models the `token.Pos` provenance token. -/
structure ProviderInfo where
  importPath : String
  funcName : String
  pos : Nat
  args : List Typ
  out : Typ
  hasErr : Bool
deriving DecidableEq

/-- One step of an injector function (`call` in goose.go).  Each element of
`args` is either an index of a given (`< len given`) or `len given + i` for
the result of the `i`-th earlier call. -/
structure Call where
  importPath : String
  funcName : String
  args : List Nat
  out : Typ
  hasErr : Bool
deriving DecidableEq

/-- A provider set (`providerSet` in goose.go): providers plus import edges,
each import edge carrying the position of its directive. -/
structure ProviderSet where
  providers : List ProviderInfo
  imports : List (ProviderSetRef × Nat)
deriving DecidableEq

/-- The memoized front-end cache (`providerSetCache`), modelled as the finite
table of provider sets it can resolve; a ref outside the table fails with the
resolution error (`mc.get` returning an error). -/
abbrev Cache := List (ProviderSetRef × ProviderSet)

/-- `providerSetCache.get`: look a reference up in the front-end table. -/
def cacheGet : Cache → ProviderSetRef → Option ProviderSet
  | [], _ => none
  | (r, s) :: rest, ref => if ref = r then some s else cacheGet rest ref

/-- The errors produced by the core (each constructor corresponds to one
`fmt.Errorf`/error return in goose.go, carrying the data interpolated into
the message). -/
inductive GooseError where
  /-- "multiple inputs of the same type %s" (goose.go:459) -/
  | duplicateInput (t : Typ)
  /-- "input of %s conflicts with provider %s at %s" (goose.go:474) -/
  | inputConflict (t : Typ) (funcName : String) (pos : Nat)
  /-- "cycle for %s" (goose.go:492) -/
  | cycle (t : Typ)
  /-- "no provider found for %s (output of injector)" (goose.go:499) -/
  | noProviderRoot (t : Typ)
  /-- "no provider found for %s (required by provider of %s)" (goose.go:502) -/
  | noProviderArg (t : Typ) (parent : Typ)
  /-- `mc.get` failure surfaced without a position (goose.go:555) -/
  | resolveError (ref : ProviderSetRef)
  /-- `mc.get` failure annotated with the import directive position (goose.go:557) -/
  | resolveErrorAt (pos : Nat) (ref : ProviderSetRef)
  /-- "multiple bindings for %s (added by injector, previous binding at %v)"
  (goose.go:565) -/
  | multipleBindingsInjector (pos : Nat) (t : Typ) (prevPos : Nat)
  /-- "multiple bindings for %s (imported by %v, previous binding at %v)"
  (goose.go:567) -/
  | multipleBindingsImported (pos : Nat) (t : Typ) (fromRef : ProviderSetRef) (prevPos : Nat)
  /-- "inject %s: no return values" (goose.go:136) -/
  | injectNoReturn (name : String)
  /-- "inject %s: second return type is %s; must be error" (goose.go:141) -/
  | injectBadSecondReturn (name : String)
  /-- "inject %s: too many return values" (goose.go:145) -/
  | injectTooManyReturns (name : String)
  /-- "inject %s: provider for %s returns error but injection not allowed to
  fail" (goose.go:159) -/
  | providerErrNotAllowed (name : String) (out : Typ)
deriving DecidableEq

/-- Decidable equality of `Except` results, used to evaluate the model on
concrete inputs. -/
instance exceptDecEq {ε α : Type} [DecidableEq ε] [DecidableEq α] :
    DecidableEq (Except ε α)
  | .ok a, .ok b =>
    if h : a = b then .isTrue (by rw [h])
    else .isFalse (by intro hc; cases hc; exact h rfl)
  | .ok _, .error _ => .isFalse (by intro hc; cases hc)
  | .error _, .ok _ => .isFalse (by intro hc; cases hc)
  | .error a, .error b =>
    if h : a = b then .isTrue (by rw [h])
    else .isFalse (by intro hc; cases hc; exact h rfl)

/-- A queue entry of `buildProviderMap` (`nextEnt` in goose.go): the set to
process, the set that imported it (zero value for roots) and the import
directive position (0 = invalid, for roots). -/
structure NextEnt where
  toRef : ProviderSetRef
  fromRef : ProviderSetRef
  pos : Nat
deriving DecidableEq

/-- The provider-adding inner loop of `buildProviderMap` (goose.go:559-570):
bind each provider's output type, failing on an output type already bound.
Note the branch on `fromRef.importPath ≠ ""` reproduces goose.go:564 exactly
as written. -/
def addProviders (fromRef : ProviderSetRef) :
    List ProviderInfo → TypeMap ProviderInfo →
    Except GooseError (TypeMap ProviderInfo)
  | [], pm => .ok pm
  | p :: ps, pm =>
    match tmAt pm p.out with
    | some prev =>
      if fromRef.importPath ≠ "" then
        .error (.multipleBindingsInjector p.pos p.out prev.pos)
      else
        .error (.multipleBindingsImported p.pos p.out fromRef prev.pos)
    | none => addProviders fromRef ps (tmSet pm p.out p)

/-- The worklist loop of `buildProviderMap` (goose.go:544-574), indexed by
fuel; `none` means the fuel ran out before the queue emptied. -/
def buildProviderMapFuel (cache : Cache) :
    Nat → TypeMap ProviderInfo → List ProviderSetRef → List NextEnt →
    Option (Except GooseError (TypeMap ProviderInfo))
  | 0, _, _, _ => none
  | fuel + 1, pm, visited, next =>
    match next with
    | [] => some (.ok pm)
    | curr :: rest =>
      if curr.toRef ∈ visited then
        buildProviderMapFuel cache fuel pm visited rest
      else
        match cacheGet cache curr.toRef with
        | none =>
          if curr.pos = 0 then some (.error (.resolveError curr.toRef))
          else some (.error (.resolveErrorAt curr.pos curr.toRef))
        | some mod =>
          match addProviders curr.fromRef mod.providers pm with
          | .error e => some (.error e)
          | .ok pm' =>
            buildProviderMapFuel cache fuel pm' (visited ++ [curr.toRef])
              (rest ++ mod.imports.map (fun ip => ⟨ip.1, curr.toRef, ip.2⟩))

/-- `buildProviderMap` (goose.go:530-576) started from the root references:
the queue holds one zero-provenance entry per root. -/
def buildProviderMap0 (cache : Cache) (fuel : Nat) (sets : List ProviderSetRef) :
    Option (Except GooseError (TypeMap ProviderInfo)) :=
  buildProviderMapFuel cache fuel [] []
    (sets.map fun r => ⟨r, ⟨"", ""⟩, 0⟩)

/-- The duplicate-given scan of `solve` (goose.go:456-462): report the first
given equal to an earlier given. -/
def givenDupAux : List Typ → List Typ → Option Typ
  | _, [] => none
  | seen, g :: rest =>
      if g ∈ seen then some g else givenDupAux (seen ++ [g]) rest

/-- Entry point of the duplicate-given scan. -/
def givenDup (given : List Typ) : Option Typ :=
  givenDupAux [] given

/-- Seeding of the `index` map with the givens (goose.go:470-477): each given
maps to its position, failing if a given is also a catalog key. -/
def seedIndex (pm : TypeMap ProviderInfo) :
    List Typ → Nat → TypeMap Nat → Except GooseError (TypeMap Nat)
  | [], _, index => .ok index
  | g :: rest, i, index =>
    match tmAt pm g with
    | some pp => .error (.inputConflict g pp.funcName pp.pos)
    | none => seedIndex pm rest (i + 1) (tmSet index g i)

/-- Sequencing of the per-argument recursive visits (the `for _, a :=
range p.args` loop at goose.go:504-509), threading the mutated state and
stopping at the first failure. -/
def runSeq (step : Typ → TypeMap Nat → List Call →
    Option (Except GooseError (TypeMap Nat × List Call))) :
    List Typ → TypeMap Nat → List Call →
    Option (Except GooseError (TypeMap Nat × List Call))
  | [], index, calls => some (.ok (index, calls))
  | a :: as, index, calls =>
    match step a index calls with
    | some (.ok (index', calls')) => runSeq step as index' calls'
    | r => r

/-- The body of one `visit` activation (goose.go:484-523).  The current type
is the last element of `trail`; the mutated `index` map and `calls` slice are
threaded through; `glen` is `len(given)`; `rec` is the recursive call on the
extended trail. -/
def visitStep (pm : TypeMap ProviderInfo) (glen : Nat)
    (rec : List Typ → TypeMap Nat → List Call →
      Option (Except GooseError (TypeMap Nat × List Call)))
    (trail : List Typ) (index : TypeMap Nat) (calls : List Call) :
    Option (Except GooseError (TypeMap Nat × List Call)) :=
  match trail.getLast? with
  | none => none
  | some typ =>
    if (tmAt index typ).isSome then some (.ok (index, calls))
    else if typ ∈ trail.dropLast then some (.error (.cycle typ))
    else
      match tmAt pm typ with
      | none =>
        if trail.length = 1 then some (.error (.noProviderRoot typ))
        else some (.error (.noProviderArg typ ((trail.dropLast.getLast?).getD typ)))
      | some p =>
        match runSeq (fun a i c => rec (trail ++ [a]) i c) p.args index calls with
        | none => none
        | some (.error e) => some (.error e)
        | some (.ok (index1, calls1)) =>
          some (.ok (tmSet index1 typ (glen + calls1.length),
            calls1 ++ [⟨p.importPath, p.funcName,
              p.args.map (fun a => (tmAt index1 a).getD 0),
              typ, p.hasErr⟩]))

/-- The recursive `visit` closure of `solve` (goose.go:484-523), indexed by
fuel; `none` means the fuel ran out. -/
def visit (pm : TypeMap ProviderInfo) (glen : Nat) :
    Nat → List Typ → TypeMap Nat → List Call →
    Option (Except GooseError (TypeMap Nat × List Call))
  | 0, _, _, _ => none
  | fuel + 1, trail, index, calls =>
    visitStep pm glen (fun tr i c => visit pm glen fuel tr i c) trail index calls

/-- `solve` (goose.go:453-528): duplicate-given check, catalog merge, given
seeding (with given/provider conflict check), then the depth-first visit of
the requested output type. -/
def solve (cache : Cache) (fuel : Nat) (out : Typ) (given : List Typ)
    (sets : List ProviderSetRef) : Option (Except GooseError (List Call)) :=
  match givenDup given with
  | some g => some (.error (.duplicateInput g))
  | none =>
    match buildProviderMap0 cache fuel sets with
    | none => none
    | some (.error e) => some (.error e)
    | some (.ok pm) =>
      match seedIndex pm given 0 [] with
      | .error e => some (.error e)
      | .ok index =>
        match visit pm given.length fuel [out] index [] with
        | none => none
        | some (.error e) => some (.error e)
        | some (.ok (_, calls)) => some (.ok calls)

/-! ## The code emitter (`gen`, goose.go:90-245) -/

/-- The structural category of a Go type's underlying type, as distinguished
by the `switch t.Underlying().(type)` in `zeroValue` (goose.go:693).  `basic`
carries the `types.BasicInfo` flags tested there. -/
structure BasicInfo where
  isBoolean : Bool
  isInteger : Bool
  isFloat : Bool
  isComplex : Bool
  isString : Bool
deriving DecidableEq

inductive GoUnderlying where
  | array
  | struct
  | basic (info : BasicInfo)
  | chan
  | iface
  | map
  | pointer
  | signature
  | slice
deriving DecidableEq

/-- Modelled from the spec: the external front end (go/types) supplies, for
each type identity, its rendering data — the defining package (none for a
predeclared type) and its name, plus the structural category of its
underlying type.  `types.TypeString(t, qf)` is modelled by `typeStringG`
below. -/
structure TypInfo where
  pkg : Option String
  name : String
  under : GoUnderlying

/-- The predeclared `error` type (`errorType`, goose.go:715), reserved as
type identity 0. -/
def errorType : Typ := 0

/-- An injector or provider parameter (`*types.Var`): its name and type. -/
structure Param where
  name : String
  typ : Typ
deriving DecidableEq

/-- The generator's import table `gen.imports` (package path → alias),
modelled as an association list; the map never stores the empty alias, so an
absent path models Go's `g.imports[path] == ""`. -/
abbrev Imports := List (String × String)

def impLookup : Imports → String → Option String
  | [], _ => none
  | (p, a) :: rest, path => if path = p then some a else impLookup rest path

/-- `gen.qualifyImport` (goose.go:226-237): the current package is never
qualified; otherwise reuse the existing alias or assign the fresh alias
`pkg<n>`, mutating the table and the counter. -/
def qualifyImport (cur : String) (imps : Imports) (n : Nat) (path : String) :
    String × Imports × Nat :=
  if path = cur then ("", imps, n)
  else
    match impLookup imps path with
    | some name => (name, imps, n)
    | none => ("pkg" ++ toString n, imps ++ [(path, "pkg" ++ toString n)], n + 1)

/-- `gen.qualifiedID` (goose.go:218-224). -/
def qualifiedID (cur : String) (imps : Imports) (n : Nat) (path sym : String) :
    String × Imports × Nat :=
  match qualifyImport cur imps n path with
  | (name, imps', n') =>
    if name = "" then (sym, imps', n') else (name ++ "." ++ sym, imps', n')

/-- `types.TypeString(t, g.qualifyPkg)`: render a type, qualifying its
defining package through `qualifyImport` (goose.go:239-241).  Modelled from
the spec's external type-rendering contract via `TypInfo`. -/
def typeStringG (tinfo : Typ → TypInfo) (t : Typ) (cur : String)
    (imps : Imports) (n : Nat) : String × Imports × Nat :=
  match (tinfo t).pkg with
  | none => ((tinfo t).name, imps, n)
  | some path =>
    match qualifyImport cur imps n path with
    | (q, imps', n') =>
      if q = "" then ((tinfo t).name, imps', n')
      else (q ++ "." ++ (tinfo t).name, imps', n')

/-- The categorization at the heart of `zeroValue` (goose.go:692-713):
given the rendered type string and the underlying category, the zero-value
expression; `none` models the `panic("unreachable")` branches. -/
def zeroValueCat (rendered : String) : GoUnderlying → Option String
  | .array => some (rendered ++ "\x7b\x7d")
  | .struct => some (rendered ++ "\x7b\x7d")
  | .basic info =>
    if info.isBoolean then some "false"
    else if info.isInteger || info.isFloat || info.isComplex then some "0"
    else if info.isString then some "\"\""
    else none
  | .chan => some "nil"
  | .iface => some "nil"
  | .map => some "nil"
  | .pointer => some "nil"
  | .signature => some "nil"
  | .slice => some "nil"

/-- `zeroValue(outType, g.qualifyPkg)` as used by the emitter (goose.go:175):
the composite cases render the type through the qualifier and so may mutate
the alias table. -/
def zeroValueG (tinfo : Typ → TypInfo) (t : Typ) (cur : String)
    (imps : Imports) (n : Nat) : Option (String × Imports × Nat) :=
  match (tinfo t).under with
  | .array =>
    match typeStringG tinfo t cur imps n with
    | (s, imps', n') => some (s ++ "\x7b\x7d", imps', n')
  | .struct =>
    match typeStringG tinfo t cur imps n with
    | (s, imps', n') => some (s ++ "\x7b\x7d", imps', n')
  | u => (zeroValueCat "" u).map (fun z => (z, imps, n))

/-- The parameter-list emission loop (goose.go:163-169). -/
def emitParams (tinfo : Typ → TypInfo) (cur : String) :
    List Param → Nat → String → Imports → Nat → String × Imports × Nat
  | [], _, acc, imps, n => (acc, imps, n)
  | p :: rest, i, acc, imps, n =>
    match typeStringG tinfo p.typ cur imps n with
    | (ts, imps', n') =>
      emitParams tinfo cur rest (i + 1)
        (acc ++ (if 0 < i then ", " else "") ++ p.name ++ " " ++ ts) imps' n'

/-- The argument-expression loop of one call (goose.go:183-192): a slot below
`len(params)` names the parameter, a later slot names the local `v<i>`. -/
def emitArgs (params : List Param) : List Nat → Nat → String → String
  | [], _, acc => acc
  | a :: rest, j, acc =>
    emitArgs params rest (j + 1)
      (acc ++ (if 0 < j then ", " else "") ++
        (if a < params.length then ((params[a]?).map Param.name).getD ""
         else "v" ++ toString (a - params.length)))

/-- The per-call emission loop (goose.go:176-200): local assignment, provider
invocation via `qualifiedID`, and the error short-circuit returning the
zero value `zv`. -/
def emitCalls (params : List Param) (zv : String) (cur : String) :
    List Call → Nat → String → Imports → Nat → String × Imports × Nat
  | [], _, acc, imps, n => (acc, imps, n)
  | c :: rest, i, acc, imps, n =>
    match qualifiedID cur imps n c.importPath c.funcName with
    | (qid, imps', n') =>
      emitCalls params zv cur rest (i + 1)
        (acc ++ "\tv" ++ toString i ++ (if c.hasErr then ", err" else "") ++
          " := " ++ qid ++ "(" ++ emitArgs params c.args 0 "" ++ ")\n" ++
          (if c.hasErr then
            "\tif err != nil \x7b\n\t\treturn " ++ zv ++ ", err\n\t\x7d\n"
           else ""))
        imps' n'

/-- The body of `gen.inject` after the signature switch (goose.go:147-215).
Returns the text appended to the buffer, the updated import table and
counter, and the error, if any; `none` propagates solver fuel exhaustion or
the `zeroValue` panic.  On every error path the text is empty and the
table and counter are unchanged, as in the source, where the error returns
precede every `g.p` call. -/
def injectCoreWith (cache : Cache) (fuel : Nat) (tinfo : Typ → TypInfo)
    (cur : String) (imps : Imports) (n : Nat) (name : String)
    (params : List Param) (sets : List ProviderSetRef)
    (returnsErr : Bool) (outType : Typ) :
    Option (String × Imports × Nat × Option GooseError) :=
  match solve cache fuel outType (params.map Param.typ) sets with
  | none => none
  | some (.error e) => some ("", imps, n, some e)
  | some (.ok calls) =>
    match calls.find? (fun c => c.hasErr && !returnsErr) with
    | some c => some ("", imps, n, some (.providerErrNotAllowed name c.out))
    | none =>
      match emitParams tinfo cur params 0 "" imps n with
      | (ps, imps1, n1) =>
        match typeStringG tinfo outType cur imps1 n1 with
        | (ots, imps2, n2) =>
          match zeroValueG tinfo outType cur imps2 n2 with
          | none => none
          | some (_zv, imps3, n3) =>
            match emitCalls params _zv cur calls 0 "" imps3 n3 with
            | (cs, imps4, n4) =>
              some ("func " ++ name ++ "(" ++ ps ++
                (if returnsErr then ") (" ++ ots ++ ", error) \x7b\n"
                 else ") " ++ ots ++ " \x7b\n") ++
                cs ++
                (if calls.length = 0 then
                  match params.find? (fun p => p.typ = outType) with
                  | some p => "\treturn " ++ p.name
                  | none => ""
                 else "\treturn v" ++ toString (calls.length - 1)) ++
                (if returnsErr then ", nil" else "") ++
                "\n\x7d\n", imps4, n4, none)

/-- `gen.inject` (goose.go:131-216): the signature switch (goose.go:132-146)
followed by `injectCoreWith`.  `results` is the injector signature's result
type list. -/
def injectCore (cache : Cache) (fuel : Nat) (tinfo : Typ → TypInfo)
    (cur : String) (imps : Imports) (n : Nat) (name : String)
    (params : List Param) (results : List Typ) (sets : List ProviderSetRef) :
    Option (String × Imports × Nat × Option GooseError) :=
  match results with
  | [] => some ("", imps, n, some (.injectNoReturn name))
  | [outType] =>
    injectCoreWith cache fuel tinfo cur imps n name params sets false outType
  | [outType, e] =>
    if e = errorType then
      injectCoreWith cache fuel tinfo cur imps n name params sets true outType
    else some ("", imps, n, some (.injectBadSecondReturn name))
  | _ => some ("", imps, n, some (.injectTooManyReturns name))

/-- The generator state (`gen`, goose.go:91-96): current package, output
buffer, import table and alias counter.  `Generate` (goose.go:45) creates
one `Gen` per run and reuses it for every injector of the run. -/
structure Gen where
  currPackage : String
  buf : String
  imports : Imports
  n : Nat
deriving DecidableEq

/-- `newGen` (goose.go:98-103). -/
def newGen (pkg : String) : Gen := ⟨pkg, "", [], 0⟩

/-- `gen.inject` acting on the generator state: appends the emitted text to
the buffer and updates the alias table and counter. -/
def inject (cache : Cache) (fuel : Nat) (tinfo : Typ → TypInfo) (g : Gen)
    (name : String) (params : List Param) (results : List Typ)
    (sets : List ProviderSetRef) : Option (Gen × Option GooseError) :=
  match injectCore cache fuel tinfo g.currPackage g.imports g.n name params results sets with
  | none => none
  | some (text, imps', n', e) => some (⟨g.currPackage, g.buf ++ text, imps', n'⟩, e)

/-! ## Invariant predicates, error classifiers, termination measure -/

/-- Every slot recorded in the `index` map is below `len(given) + len(calls)`. -/
def IndexBound (glen : Nat) (index : TypeMap Nat) (ncalls : Nat) : Prop :=
  ∀ t n, tmAt index t = some n → n < glen + ncalls

/-- Every argument slot of the `k`-th call references a given or an earlier
call: it is below `len(given) + k`. -/
def ArgsOk (glen : Nat) (calls : List Call) : Prop :=
  ∀ k c, calls[k]? = some c → ∀ a ∈ c.args, a < glen + k

/-- The solver loop invariant for claim C1. -/
def SolveInv (glen : Nat) (index : TypeMap Nat) (calls : List Call) : Prop :=
  IndexBound glen index calls.length ∧ ArgsOk glen calls

/-- The call list has pairwise distinct output types, and every emitted
output type is recorded in the `index` map. -/
def OutsInv (index : TypeMap Nat) (calls : List Call) : Prop :=
  (calls.map Call.out).Nodup ∧ ∀ cl ∈ calls, (tmAt index cl.out).isSome

/-- Errors produced by the `visit` recursion. -/
def isVisitErrKind : GooseError → Bool
  | .cycle _ => true
  | .noProviderRoot _ => true
  | .noProviderArg _ _ => true
  | _ => false

/-- Errors produced by catalog merge (`buildProviderMap`). -/
def isMergeErrKind : GooseError → Bool
  | .resolveError _ => true
  | .resolveErrorAt _ _ => true
  | .multipleBindingsInjector _ _ _ => true
  | .multipleBindingsImported _ _ _ _ => true
  | _ => false

/-- The three injector-signature validation errors (goose.go:134-146). -/
def GooseError.isSignatureErr : GooseError → Bool
  | .injectNoReturn _ => true
  | .injectBadSecondReturn _ => true
  | .injectTooManyReturns _ => true
  | _ => false

/-- The two `GivenConflictError` kinds of `solve` (goose.go:459, 474). -/
def GooseError.isGivenConflictErr : GooseError → Bool
  | .duplicateInput _ => true
  | .inputConflict _ _ _ => true
  | _ => false

/-- Total number of import edges recorded in the front-end table. -/
def importsTotal (cache : Cache) : Nat :=
  (cache.map (fun e => e.2.imports.length)).sum

/-- Number of table keys not yet visited (with multiplicity). -/
def remainingRefs (cache : Cache) (visited : List ProviderSetRef) : Nat :=
  ((cache.map Prod.fst).filter (fun r => decide (r ∉ visited))).length

/-- Decreasing measure of the `buildProviderMap` worklist loop. -/
def bpmMeasure (cache : Cache) (visited : List ProviderSetRef)
    (next : List NextEnt) : Nat :=
  next.length + (importsTotal cache + 1) * remainingRefs cache visited

/-! ## Concrete scenarios used as witnesses and counterexamples -/

/-- A set in package "a" providing type 7 and importing the set in package
"b", which also provides type 7: the duplicate is discovered via the import
edge. -/
def importConflictCache : Cache :=
  [(⟨"a", "Module"⟩, ⟨[⟨"a", "ProvideT", 10, [], 7, false⟩], [(⟨"b", "Module"⟩, 5)]⟩),
   (⟨"b", "Module"⟩, ⟨[⟨"b", "ProvideT", 20, [], 7, false⟩], []⟩)]

/-- Two root sets each providing type 7: the duplicate is discovered in a
set requested directly by the injector. -/
def rootConflictCache : Cache :=
  [(⟨"a", "Module"⟩, ⟨[⟨"a", "ProvideT", 10, [], 7, false⟩], []⟩),
   (⟨"b", "Module"⟩, ⟨[⟨"b", "ProvideT", 20, [], 7, false⟩], []⟩)]

/-- A provider for type 1 requiring type 2 and a provider for type 2
requiring type 1 (the spec's A/B cycle scenario). -/
def cycleCache : Cache :=
  [(⟨"p", "Module"⟩,
    ⟨[⟨"p", "ProvideA", 1, [2], 1, false⟩, ⟨"p", "ProvideB", 2, [1], 2, false⟩], []⟩)]

/-- A set that imports itself. -/
def selfImportCache : Cache :=
  [(⟨"p", "Module"⟩, ⟨[⟨"p", "ProvideT", 1, [], 7, false⟩], [(⟨"p", "Module"⟩, 3)]⟩)]

/-- P1: () → 1, P2: (1) → 2, P3: (1, 2) → 3; type 1 is required twice. -/
def diamondCache : Cache :=
  [(⟨"p", "Module"⟩,
    ⟨[⟨"p", "P1", 1, [], 1, false⟩, ⟨"p", "P2", 2, [1], 2, false⟩,
      ⟨"p", "P3", 3, [1, 2], 3, false⟩], []⟩)]

/-- A single failure-capable provider for type 9. -/
def errProviderCache : Cache :=
  [(⟨"p", "Module"⟩, ⟨[⟨"p", "PE", 1, [], 9, true⟩], []⟩)]

def refMod : ProviderSetRef := ⟨"p", "Module"⟩

def refModA : ProviderSetRef := ⟨"pa", "Module"⟩

def refModB : ProviderSetRef := ⟨"pb", "Module"⟩

/-- Two single-provider sets living in distinct packages "pa" and "pb",
used to exercise the emitter's alias table. -/
def emitCache : Cache :=
  [(refModA, ⟨[⟨"pa", "ProvideA", 11, [], 1, false⟩], []⟩),
   (refModB, ⟨[⟨"pb", "ProvideB", 12, [], 2, false⟩], []⟩)]

/-- A front-end rendering environment: type 1 is `int`, type 2 is `string`,
anything else is the predeclared `error` interface. -/
def tinfoEmit : Typ → TypInfo := fun t =>
  if t = 1 then ⟨none, "int", .basic ⟨false, true, false, false, false⟩⟩
  else if t = 2 then ⟨none, "string", .basic ⟨false, false, false, false, true⟩⟩
  else ⟨none, "error", .iface⟩

/-! ## Map lemmas -/

theorem tmAt_tmSet_self {α : Type} (m : TypeMap α) (k : Typ) (v : α) :
    tmAt (tmSet m k v) k = some v := by
  induction m with
  | nil => simp [tmSet, tmAt]
  | cons hd tl ih =>
    obtain ⟨k', v'⟩ := hd
    by_cases h : k = k'
    · subst h; simp [tmSet, tmAt]
    · simp [tmSet, tmAt, h, ih]

theorem tmAt_tmSet_ne {α : Type} (m : TypeMap α) {k t : Typ} (v : α) (h : t ≠ k) :
    tmAt (tmSet m k v) t = tmAt m t := by
  induction m with
  | nil => simp [tmSet, tmAt, h]
  | cons hd tl ih =>
    obtain ⟨k', v'⟩ := hd
    by_cases hk : k = k'
    · subst hk; simp [tmSet, tmAt, h]
    · simp only [tmSet, if_neg hk, tmAt]
      by_cases ht : t = k'
      · simp [ht]
      · simp [ht, ih]

theorem tmAt_tmSet_isSome {α : Type} (m : TypeMap α) (k t : Typ) (v : α)
    (h : (tmAt m t).isSome) : (tmAt (tmSet m k v) t).isSome := by
  by_cases hk : t = k
  · subst hk; simp [tmAt_tmSet_self]
  · rwa [tmAt_tmSet_ne m v hk]

/-! ## `runSeq` lemmas -/

theorem runSeq_rel (R : TypeMap Nat → List Call → TypeMap Nat → List Call → Prop)
    (hrefl : ∀ i c, R i c i c)
    (htrans : ∀ {i1 c1 i2 c2 i3 c3}, R i1 c1 i2 c2 → R i2 c2 i3 c3 → R i1 c1 i3 c3)
    (step : Typ → TypeMap Nat → List Call →
      Option (Except GooseError (TypeMap Nat × List Call)))
    (hstep : ∀ a i c i' c', step a i c = some (.ok (i', c')) → R i c i' c') :
    ∀ as i c i' c', runSeq step as i c = some (.ok (i', c')) → R i c i' c' := by
  intro as
  induction as with
  | nil =>
    intro i c i' c' h
    simp only [runSeq, Option.some.injEq, Except.ok.injEq, Prod.mk.injEq] at h
    obtain ⟨h1, h2⟩ := h
    subst h1; subst h2
    exact hrefl _ _
  | cons a as ih =>
    intro i c i' c' h
    simp only [runSeq] at h
    cases hs : step a i c with
    | none => rw [hs] at h; exact absurd h (by simp)
    | some r =>
      cases r with
      | error e => rw [hs] at h; exact absurd h (by simp)
      | ok p =>
        obtain ⟨i2, c2⟩ := p
        rw [hs] at h
        exact htrans (hstep a i c i2 c2 hs) (ih i2 c2 i' c' h)

theorem runSeq_err
    (step : Typ → TypeMap Nat → List Call →
      Option (Except GooseError (TypeMap Nat × List Call))) :
    ∀ as i c e, runSeq step as i c = some (.error e) →
      ∃ a i1 c1, a ∈ as ∧ step a i1 c1 = some (.error e) := by
  intro as
  induction as with
  | nil => intro i c e h; simp [runSeq] at h
  | cons a as ih =>
    intro i c e h
    simp only [runSeq] at h
    cases hs : step a i c with
    | none => rw [hs] at h; exact absurd h (by simp)
    | some r =>
      cases r with
      | error e' =>
        rw [hs] at h
        simp only [Option.some.injEq, Except.error.injEq] at h
        subst h
        exact ⟨a, i, c, by simp, hs⟩
      | ok p =>
        obtain ⟨i2, c2⟩ := p
        rw [hs] at h
        obtain ⟨a', i1, c1, ha, hstep⟩ := ih i2 c2 e h
        exact ⟨a', i1, c1, by simp [ha], hstep⟩

theorem runSeq_all_present
    (step : Typ → TypeMap Nat → List Call →
      Option (Except GooseError (TypeMap Nat × List Call)))
    (hstepLast : ∀ a i c i' c', step a i c = some (.ok (i', c')) → (tmAt i' a).isSome)
    (hstepMono : ∀ a i c i' c', step a i c = some (.ok (i', c')) →
      ∀ t, (tmAt i t).isSome → (tmAt i' t).isSome) :
    ∀ as i c i' c', runSeq step as i c = some (.ok (i', c')) →
      ∀ a ∈ as, (tmAt i' a).isSome := by
  intro as
  induction as with
  | nil => intro i c i' c' _ a ha; simp at ha
  | cons a as ih =>
    intro i c i' c' h b hb
    simp only [runSeq] at h
    cases hs : step a i c with
    | none => rw [hs] at h; exact absurd h (by simp)
    | some r =>
      cases r with
      | error e => rw [hs] at h; exact absurd h (by simp)
      | ok p =>
        obtain ⟨i2, c2⟩ := p
        rw [hs] at h
        rcases List.mem_cons.mp hb with hb | hb
        · subst hb
          have hmono := runSeq_rel
            (fun i _ i' _ => ∀ t, (tmAt i t).isSome → (tmAt i' t).isSome)
            (fun _ _ _ h => h) (fun h1 h2 t ht => h2 t (h1 t ht))
            step (fun a i c i' c' hs t ht => hstepMono a i c i' c' hs t ht)
            as i2 c2 i' c' h
          exact hmono b (hstepLast b i c i2 c2 hs)
        · exact ih i2 c2 i' c' h b hb

/-! ## List helper lemmas -/

theorem dropLast_app_single {α : Type} (l : List α) (a : α) :
    (l ++ [a]).dropLast = l := by
  simp

theorem getLastQ_app_single {α : Type} (l : List α) (a : α) :
    (l ++ [a]).getLast? = some a :=
  List.getLast?_concat l

theorem mem_of_getLastQ {α : Type} {l : List α} {a : α}
    (h : l.getLast? = some a) : a ∈ l :=
  List.mem_of_getLast?_eq_some h

/-! ## `visitStep` inversion lemmas -/

theorem visitStep_ok_inv (pm : TypeMap ProviderInfo) (glen : Nat)
    (rec : List Typ → TypeMap Nat → List Call →
      Option (Except GooseError (TypeMap Nat × List Call)))
    (trail : List Typ) (index : TypeMap Nat) (calls : List Call)
    (index' : TypeMap Nat) (calls' : List Call)
    (h : visitStep pm glen rec trail index calls = some (.ok (index', calls'))) :
    ∃ typ, trail.getLast? = some typ ∧
      ((tmAt index typ).isSome ∧ index' = index ∧ calls' = calls ∨
       tmAt index typ = none ∧ typ ∉ trail.dropLast ∧
         ∃ p index1 calls1, tmAt pm typ = some p ∧
           runSeq (fun a i c => rec (trail ++ [a]) i c) p.args index calls
             = some (.ok (index1, calls1)) ∧
           index' = tmSet index1 typ (glen + calls1.length) ∧
           calls' = calls1 ++ [⟨p.importPath, p.funcName,
             p.args.map (fun a => (tmAt index1 a).getD 0), typ, p.hasErr⟩]) := by
  unfold visitStep at h
  split at h
  · exact absurd h (by simp)
  next typ hl =>
    refine ⟨typ, hl, ?_⟩
    split at h
    next hidx =>
      simp only [Option.some.injEq, Except.ok.injEq, Prod.mk.injEq] at h
      exact Or.inl ⟨hidx, h.1.symm, h.2.symm⟩
    next hidx =>
      have hnone : tmAt index typ = none := by
        simpa [Option.not_isSome_iff_eq_none] using hidx
      split at h
      · exact absurd h (by simp)
      next hcyc =>
        split at h
        · split at h <;> exact absurd h (by simp)
        next p hp =>
          split at h
          · exact absurd h (by simp)
          · exact absurd h (by simp)
          next index1 calls1 hrs =>
            simp only [Option.some.injEq, Except.ok.injEq, Prod.mk.injEq] at h
            exact Or.inr ⟨hnone, hcyc, p, index1, calls1, hp, hrs, h.1.symm, h.2.symm⟩

theorem visitStep_err_inv (pm : TypeMap ProviderInfo) (glen : Nat)
    (rec : List Typ → TypeMap Nat → List Call →
      Option (Except GooseError (TypeMap Nat × List Call)))
    (trail : List Typ) (index : TypeMap Nat) (calls : List Call) (e : GooseError)
    (h : visitStep pm glen rec trail index calls = some (.error e)) :
    ∃ typ, trail.getLast? = some typ ∧ tmAt index typ = none ∧
      (e = .cycle typ ∨
       e = .noProviderRoot typ ∨ (∃ par, e = .noProviderArg typ par) ∨
       ∃ p, tmAt pm typ = some p ∧
         runSeq (fun a i c => rec (trail ++ [a]) i c) p.args index calls
           = some (.error e)) := by
  unfold visitStep at h
  split at h
  · exact absurd h (by simp)
  next typ hl =>
    refine ⟨typ, hl, ?_⟩
    split at h
    next hidx => exact absurd h (by simp)
    next hidx =>
      have hnone : tmAt index typ = none := by
        simpa [Option.not_isSome_iff_eq_none] using hidx
      refine ⟨hnone, ?_⟩
      split at h
      next hcyc =>
        simp only [Option.some.injEq, Except.error.injEq] at h
        exact Or.inl h.symm
      next hcyc =>
        split at h
        · split at h <;> simp only [Option.some.injEq, Except.error.injEq] at h
          · exact Or.inr (Or.inl h.symm)
          · exact Or.inr (Or.inr (Or.inl ⟨_, h.symm⟩))
        next p hp =>
          split at h
          · exact absurd h (by simp)
          next e' hrs =>
            simp only [Option.some.injEq, Except.error.injEq] at h
            subst h
            exact Or.inr (Or.inr (Or.inr ⟨p, hp, hrs⟩))
          next => exact absurd h (by simp)

/-! ## `visit` invariants -/

theorem visit_mono_ext (pm : TypeMap ProviderInfo) (glen : Nat) :
    ∀ fuel trail index calls index' calls',
      visit pm glen fuel trail index calls = some (.ok (index', calls')) →
      (∀ t, (tmAt index t).isSome → (tmAt index' t).isSome) ∧
        ∃ tail, calls' = calls ++ tail := by
  intro fuel
  induction fuel with
  | zero => intro trail index calls index' calls' h; simp [visit] at h
  | succ fuel ih =>
    intro trail index calls index' calls' h
    simp only [visit] at h
    obtain ⟨typ, hl, hcase⟩ := visitStep_ok_inv _ _ _ _ _ _ _ _ h
    rcases hcase with ⟨hidx, h1, h2⟩ | ⟨hnone, hcyc, p, index1, calls1, hp, hrs, h1, h2⟩
    · subst h1; subst h2; exact ⟨fun t ht => ht, ⟨[], by simp⟩⟩
    · have hcomp := runSeq_rel
        (fun i c i' c' =>
          (∀ t, (tmAt i t).isSome → (tmAt i' t).isSome) ∧ ∃ tail, c' = c ++ tail)
        (fun i c => ⟨fun t ht => ht, ⟨[], by simp⟩⟩)
        (fun h1 h2 => ⟨fun t ht => h2.1 t (h1.1 t ht), by
          obtain ⟨t1, e1⟩ := h1.2
          obtain ⟨t2, e2⟩ := h2.2
          exact ⟨t1 ++ t2, by rw [e2, e1, List.append_assoc]⟩⟩)
        _ (fun a i c i' c' hs => ih (trail ++ [a]) i c i' c' hs)
        p.args index calls index1 calls1 hrs
      subst h1; subst h2
      refine ⟨fun t ht => tmAt_tmSet_isSome _ _ _ _ (hcomp.1 t ht), ?_⟩
      obtain ⟨tail, e⟩ := hcomp.2
      exact ⟨tail ++ [_], by rw [e, List.append_assoc]⟩

theorem visit_last (pm : TypeMap ProviderInfo) (glen : Nat)
    (fuel : Nat) (trail : List Typ) (index : TypeMap Nat) (calls : List Call)
    (index' : TypeMap Nat) (calls' : List Call) (typ : Typ)
    (hl : trail.getLast? = some typ)
    (h : visit pm glen fuel trail index calls = some (.ok (index', calls'))) :
    (tmAt index' typ).isSome := by
  cases fuel with
  | zero => simp [visit] at h
  | succ fuel =>
    simp only [visit] at h
    obtain ⟨typ', hl', hcase⟩ := visitStep_ok_inv _ _ _ _ _ _ _ _ h
    rw [hl] at hl'
    injection hl' with hl'
    subst hl'
    rcases hcase with ⟨hidx, h1, _⟩ | ⟨_, _, p, index1, calls1, _, _, h1, _⟩
    · subst h1; exact hidx
    · subst h1; simp [tmAt_tmSet_self]

theorem visit_preserve_none (pm : TypeMap ProviderInfo) (glen : Nat) :
    ∀ fuel trail index calls index' calls',
      visit pm glen fuel trail index calls = some (.ok (index', calls')) →
      ∀ t ∈ trail.dropLast, tmAt index t = none → tmAt index' t = none := by
  intro fuel
  induction fuel with
  | zero => intro trail index calls index' calls' h; simp [visit] at h
  | succ fuel ih =>
    intro trail index calls index' calls' h
    simp only [visit] at h
    obtain ⟨typ, hl, hcase⟩ := visitStep_ok_inv _ _ _ _ _ _ _ _ h
    rcases hcase with ⟨hidx, h1, h2⟩ | ⟨hnone, hcyc, p, index1, calls1, hp, hrs, h1, h2⟩
    · subst h1; exact fun t _ ht => ht
    · intro t htl htn
      have htrail := runSeq_rel
        (fun i _ i' _ => ∀ s ∈ trail, tmAt i s = none → tmAt i' s = none)
        (fun i c => fun s _ hn => hn)
        (fun h1 h2 s hs hn => h2 s hs (h1 s hs hn))
        _ (fun a i c i' c' hstep s hs hn =>
            ih (trail ++ [a]) i c i' c' hstep s
              (by rw [dropLast_app_single]; exact hs) hn)
        p.args index calls index1 calls1 hrs
      have ht1 : tmAt index1 t = none :=
        htrail t (List.mem_of_mem_dropLast htl) htn
      subst h1
      have htyp : t ≠ typ := fun he => hcyc (he ▸ htl)
      rw [tmAt_tmSet_ne _ _ htyp]
      exact ht1

theorem visit_bound (pm : TypeMap ProviderInfo) (glen : Nat) :
    ∀ fuel trail index calls index' calls',
      visit pm glen fuel trail index calls = some (.ok (index', calls')) →
      SolveInv glen index calls → SolveInv glen index' calls' := by
  intro fuel
  induction fuel with
  | zero => intro trail index calls index' calls' h; simp [visit] at h
  | succ fuel ih =>
    intro trail index calls index' calls' h hinv
    simp only [visit] at h
    obtain ⟨typ, hl, hcase⟩ := visitStep_ok_inv _ _ _ _ _ _ _ _ h
    rcases hcase with ⟨hidx, h1, h2⟩ | ⟨hnone, hcyc, p, index1, calls1, hp, hrs, h1, h2⟩
    · subst h1; subst h2; exact hinv
    · have hinv1 := runSeq_rel
        (fun i c i' c' => SolveInv glen i c → SolveInv glen i' c')
        (fun i c hv => hv) (fun h1 h2 hv => h2 (h1 hv))
        _ (fun a i c i' c' hs hv => ih (trail ++ [a]) i c i' c' hs hv)
        p.args index calls index1 calls1 hrs hinv
      have hpres := runSeq_all_present _
        (fun a i c i' c' hs =>
          visit_last pm glen fuel (trail ++ [a]) i c i' c' a (getLastQ_app_single _ _) hs)
        (fun a i c i' c' hs => (visit_mono_ext pm glen fuel (trail ++ [a]) i c i' c' hs).1)
        p.args index calls index1 calls1 hrs
      subst h1; subst h2
      obtain ⟨hib, hao⟩ := hinv1
      constructor
      · intro t m ht
        simp only [List.length_append, List.length_cons, List.length_nil]
        by_cases he : t = typ
        · subst he
          rw [tmAt_tmSet_self] at ht
          injection ht with ht
          omega
        · rw [tmAt_tmSet_ne _ _ he] at ht
          have := hib t m ht
          omega
      · intro k c hk a ha
        by_cases hlt : k < calls1.length
        · rw [List.getElem?_append_left hlt] at hk
          exact hao k c hk a ha
        · by_cases heq : k = calls1.length
          · subst heq
            rw [List.getElem?_concat_length] at hk
            injection hk with hk
            subst hk
            simp only [List.mem_map] at ha
            obtain ⟨x, hx, hxa⟩ := ha
            obtain ⟨m, hm⟩ := Option.isSome_iff_exists.mp (hpres x hx)
            rw [hm] at hxa
            have := hib x m hm
            simp only [Option.getD_some] at hxa
            omega
          · have hge : (calls1 ++ [(⟨p.importPath, p.funcName,
                p.args.map (fun a => (tmAt index1 a).getD 0), typ, p.hasErr⟩ : Call)]).length ≤ k := by
              simp only [List.length_append, List.length_cons, List.length_nil]
              omega
            rw [List.getElem?_eq_none hge] at hk
            cases hk

theorem visit_outs (pm : TypeMap ProviderInfo) (glen : Nat) :
    ∀ fuel trail index calls index' calls',
      visit pm glen fuel trail index calls = some (.ok (index', calls')) →
      OutsInv index calls → OutsInv index' calls' := by
  intro fuel
  induction fuel with
  | zero => intro trail index calls index' calls' h; simp [visit] at h
  | succ fuel ih =>
    intro trail index calls index' calls' h hout
    simp only [visit] at h
    obtain ⟨typ, hl, hcase⟩ := visitStep_ok_inv _ _ _ _ _ _ _ _ h
    rcases hcase with ⟨hidx, h1, h2⟩ | ⟨hnone, hcyc, p, index1, calls1, hp, hrs, h1, h2⟩
    · subst h1; subst h2; exact hout
    · have htypmem : typ ∈ trail := mem_of_getLastQ hl
      have hcomp := runSeq_rel
        (fun i c i' c' => (OutsInv i c → OutsInv i' c') ∧
          (tmAt i typ = none → tmAt i' typ = none))
        (fun i c => ⟨fun hv => hv, fun hn => hn⟩)
        (fun h1 h2 => ⟨fun hv => h2.1 (h1.1 hv), fun hn => h2.2 (h1.2 hn)⟩)
        _ (fun a i c i' c' hs =>
          ⟨fun hv => ih (trail ++ [a]) i c i' c' hs hv,
           fun hn => visit_preserve_none pm glen fuel (trail ++ [a]) i c i' c' hs typ
             (by rw [dropLast_app_single]; exact htypmem) hn⟩)
        p.args index calls index1 calls1 hrs
      have hout1 := hcomp.1 hout
      have htyp1 : tmAt index1 typ = none := hcomp.2 hnone
      subst h1; subst h2
      constructor
      · have hnotin : typ ∉ calls1.map Call.out := by
          intro hmem
          obtain ⟨cl, hcl, hclo⟩ := List.mem_map.mp hmem
          have := hout1.2 cl hcl
          rw [hclo, htyp1] at this
          simp at this
        simp only [List.map_append, List.map_cons, List.map_nil]
        rw [List.nodup_append]
        exact ⟨hout1.1, List.nodup_singleton _, by
          intro x hx hx1
          simp only [List.mem_singleton] at hx1
          subst hx1
          exact hnotin hx⟩
      · intro cl hcl
        rcases List.mem_append.mp hcl with hcl | hcl
        · exact tmAt_tmSet_isSome _ _ _ _ (hout1.2 cl hcl)
        · simp only [List.mem_singleton] at hcl
          subst hcl
          simp [tmAt_tmSet_self]

theorem visit_err (pm : TypeMap ProviderInfo) (glen : Nat) :
    ∀ fuel trail index calls e,
      visit pm glen fuel trail index calls = some (.error e) →
      isVisitErrKind e = true := by
  intro fuel
  induction fuel with
  | zero => intro trail index calls e h; simp [visit] at h
  | succ fuel ih =>
    intro trail index calls e h
    simp only [visit] at h
    obtain ⟨typ, hl, hnone, hcase⟩ := visitStep_err_inv _ _ _ _ _ _ _ h
    rcases hcase with he | he | ⟨par, he⟩ | ⟨p, hp, hrs⟩
    · subst he; rfl
    · subst he; rfl
    · subst he; rfl
    · obtain ⟨a, i1, c1, _, hstep⟩ := runSeq_err _ p.args index calls e hrs
      exact ih (trail ++ [a]) i1 c1 e hstep

/-! ## `seedIndex` and `givenDup` lemmas -/

theorem seedIndex_bound (pm : TypeMap ProviderInfo) :
    ∀ gs i index index',
      seedIndex pm gs i index = .ok index' →
      (∀ t m, tmAt index t = some m → m < i + gs.length) →
      ∀ t m, tmAt index' t = some m → m < i + gs.length := by
  intro gs
  induction gs with
  | nil =>
    intro i index index' h hb
    simp only [seedIndex, Except.ok.injEq] at h
    subst h
    simpa using hb
  | cons g rest ih =>
    intro i index index' h hb
    simp only [seedIndex] at h
    cases hp : tmAt pm g with
    | some pp => rw [hp] at h; exact absurd h (by simp)
    | none =>
      rw [hp] at h
      have hb' : ∀ t m, tmAt (tmSet index g i) t = some m → m < (i + 1) + rest.length := by
        intro t m ht
        by_cases he : t = g
        · subst he
          rw [tmAt_tmSet_self] at ht
          injection ht with ht
          omega
        · rw [tmAt_tmSet_ne _ _ he] at ht
          have := hb t m ht
          simp only [List.length_cons] at this
          omega
      intro t m ht
      have := ih (i + 1) (tmSet index g i) index' h hb' t m ht
      simp only [List.length_cons]
      omega

theorem seedIndex_ok (pm : TypeMap ProviderInfo) :
    ∀ gs i index, (∀ g ∈ gs, tmAt pm g = none) →
      ∃ index', seedIndex pm gs i index = .ok index' := by
  intro gs
  induction gs with
  | nil => intro i index _; exact ⟨index, rfl⟩
  | cons g rest ih =>
    intro i index hall
    have hp : tmAt pm g = none := hall g (by simp)
    obtain ⟨index', h⟩ := ih (i + 1) (tmSet index g i)
      (fun g' hg' => hall g' (List.mem_cons_of_mem _ hg'))
    exact ⟨index', by simp only [seedIndex, hp]; exact h⟩

theorem seedIndex_conflict (pm : TypeMap ProviderInfo) :
    ∀ gs i index, (∃ g ∈ gs, (tmAt pm g).isSome) →
      ∃ t pp, tmAt pm t = some pp ∧ t ∈ gs ∧
        seedIndex pm gs i index = .error (.inputConflict t pp.funcName pp.pos) := by
  intro gs
  induction gs with
  | nil => intro i index h; simp at h
  | cons g rest ih =>
    intro i index hex
    cases hp : tmAt pm g with
    | some pp =>
      exact ⟨g, pp, hp, by simp, by simp only [seedIndex, hp]⟩
    | none =>
      obtain ⟨g', hg', hs⟩ := hex
      rcases List.mem_cons.mp hg' with hg' | hg'
      · subst hg'; rw [hp] at hs; simp at hs
      · obtain ⟨t, pp, h1, h2, h3⟩ := ih (i + 1) (tmSet index g i) ⟨g', hg', hs⟩
        exact ⟨t, pp, h1, List.mem_cons_of_mem _ h2, by simp only [seedIndex, hp]; exact h3⟩

theorem seedIndex_err (pm : TypeMap ProviderInfo) :
    ∀ gs i index e, seedIndex pm gs i index = .error e →
      ∃ t f p, e = .inputConflict t f p := by
  intro gs
  induction gs with
  | nil => intro i index e h; simp [seedIndex] at h
  | cons g rest ih =>
    intro i index e h
    simp only [seedIndex] at h
    cases hp : tmAt pm g with
    | some pp =>
      rw [hp] at h
      simp only [Except.error.injEq] at h
      exact ⟨g, pp.funcName, pp.pos, h.symm⟩
    | none =>
      rw [hp] at h
      exact ih _ _ _ h

theorem givenDupAux_none : ∀ (gs seen : List Typ),
    givenDupAux seen gs = none ↔ gs.Nodup ∧ ∀ g ∈ gs, g ∉ seen := by
  intro gs
  induction gs with
  | nil => intro seen; simp [givenDupAux]
  | cons g rest ih =>
    intro seen
    simp only [givenDupAux]
    by_cases hg : g ∈ seen
    · rw [if_pos hg]
      constructor
      · intro h; exact absurd h (by simp)
      · rintro ⟨-, hall⟩
        exact absurd hg (hall g (by simp))
    · rw [if_neg hg, ih]
      constructor
      · rintro ⟨hnd, hall⟩
        constructor
        · rw [List.nodup_cons]
          refine ⟨fun hgr => (hall g hgr) (by simp), hnd⟩
        · intro x hx
          rcases List.mem_cons.mp hx with hx | hx
          · subst hx; exact hg
          · exact fun hxs => (hall x hx) (by simp [hxs])
      · rintro ⟨hnd, hall⟩
        rw [List.nodup_cons] at hnd
        refine ⟨hnd.2, ?_⟩
        intro x hx hxs
        rcases List.mem_append.mp hxs with hxs | hxs
        · exact (hall x (List.mem_cons_of_mem _ hx)) hxs
        · simp only [List.mem_singleton] at hxs
          subst hxs
          exact hnd.1 hx

theorem givenDup_none_iff (gs : List Typ) : givenDup gs = none ↔ gs.Nodup := by
  unfold givenDup
  rw [givenDupAux_none]
  simp

theorem givenDup_some_of_not_nodup {gs : List Typ} (h : ¬ gs.Nodup) :
    ∃ t, givenDup gs = some t := by
  cases hd : givenDup gs with
  | none => exact absurd ((givenDup_none_iff gs).mp hd) h
  | some t => exact ⟨t, rfl⟩

/-! ## Merge error classification -/

theorem addProviders_err (fromRef : ProviderSetRef) :
    ∀ ps pm e, addProviders fromRef ps pm = .error e → isMergeErrKind e = true := by
  intro ps
  induction ps with
  | nil => intro pm e h; simp [addProviders] at h
  | cons p ps ih =>
    intro pm e h
    simp only [addProviders] at h
    cases hp : tmAt pm p.out with
    | some prev =>
      simp only [hp] at h
      split at h <;> (simp only [Except.error.injEq] at h; subst h; rfl)
    | none =>
      rw [hp] at h
      exact ih _ _ h

theorem bpmFuel_err (cache : Cache) :
    ∀ fuel pm visited next e,
      buildProviderMapFuel cache fuel pm visited next = some (.error e) →
      isMergeErrKind e = true := by
  intro fuel
  induction fuel with
  | zero => intro pm visited next e h; simp [buildProviderMapFuel] at h
  | succ fuel ih =>
    intro pm visited next e h
    simp only [buildProviderMapFuel] at h
    split at h
    · exact absurd h (by simp)
    next curr rest =>
      split at h
      · exact ih _ _ _ _ h
      · split at h
        · split at h <;> (simp only [Option.some.injEq, Except.error.injEq] at h; subst h; rfl)
        next mod hmod =>
          split at h
          next e' hadd =>
            simp only [Option.some.injEq, Except.error.injEq] at h
            subst h
            exact addProviders_err _ _ _ _ hadd
          next pm' hadd => exact ih _ _ _ _ h

/-! ## `solve` inversion -/

theorem solve_ok_inv (cache : Cache) (fuel : Nat) (out : Typ) (given : List Typ)
    (sets : List ProviderSetRef) (calls : List Call)
    (h : solve cache fuel out given sets = some (.ok calls)) :
    ∃ pm index index1,
      givenDup given = none ∧
      buildProviderMap0 cache fuel sets = some (.ok pm) ∧
      seedIndex pm given 0 [] = .ok index ∧
      visit pm given.length fuel [out] index [] = some (.ok (index1, calls)) := by
  unfold solve at h
  split at h
  · exact absurd h (by simp)
  next hdup =>
    split at h
    · exact absurd h (by simp)
    · exact absurd h (by simp)
    next pm hpm =>
      split at h
      next e hseed => exact absurd h (by simp)
      next index hseed =>
        split at h
        · exact absurd h (by simp)
        · exact absurd h (by simp)
        next index1 calls1 hv =>
          simp only [Option.some.injEq, Except.ok.injEq] at h
          subst h
          exact ⟨pm, index, index1, hdup, hpm, hseed, hv⟩

theorem solve_err_classified (cache : Cache) (fuel : Nat) (out : Typ)
    (given : List Typ) (sets : List ProviderSetRef) (e : GooseError)
    (h : solve cache fuel out given sets = some (.error e)) :
    e.isGivenConflictErr = true ∨ isMergeErrKind e = true ∨
      isVisitErrKind e = true := by
  unfold solve at h
  split at h
  next g hdup =>
    simp only [Option.some.injEq, Except.error.injEq] at h
    subst h
    exact Or.inl rfl
  next hdup =>
    split at h
    · exact absurd h (by simp)
    next e' hpm =>
      simp only [Option.some.injEq, Except.error.injEq] at h
      subst h
      exact Or.inr (Or.inl (bpmFuel_err _ _ _ _ _ _ hpm))
    next pm hpm =>
      split at h
      next e' hseed =>
        simp only [Option.some.injEq, Except.error.injEq] at h
        subst h
        obtain ⟨t, f, p, he⟩ := seedIndex_err _ _ _ _ _ hseed
        subst he
        exact Or.inl rfl
      next index hseed =>
        split at h
        · exact absurd h (by simp)
        next e' hv =>
          simp only [Option.some.injEq, Except.error.injEq] at h
          subst h
          exact Or.inr (Or.inr (visit_err _ _ _ _ _ _ _ hv))
        next index1 calls1 hv => exact absurd h (by simp)

theorem solve_clean_err (cache : Cache) (fuel : Nat) (out : Typ)
    (given : List Typ) (sets : List ProviderSetRef)
    (pm : TypeMap ProviderInfo) (e : GooseError)
    (hnd : given.Nodup)
    (hpm : buildProviderMap0 cache fuel sets = some (.ok pm))
    (hclean : ∀ g ∈ given, tmAt pm g = none)
    (h : solve cache fuel out given sets = some (.error e)) :
    isVisitErrKind e = true := by
  unfold solve at h
  rw [(givenDup_none_iff given).mpr hnd] at h
  simp only [hpm] at h
  obtain ⟨index, hseed⟩ := seedIndex_ok pm given 0 [] hclean
  simp only [hseed] at h
  cases hv : visit pm given.length fuel [out] index [] with
  | none => rw [hv] at h; exact absurd h (by simp)
  | some r =>
    cases r with
    | error e' =>
      rw [hv] at h
      simp only [Option.some.injEq, Except.error.injEq] at h
      subst h
      exact visit_err _ _ _ _ _ _ _ hv
    | ok p =>
      rw [hv] at h
      exact absurd h (by simp)

/-! ## Claim theorems: the solver -/

/-- C1: whenever `solve` succeeds, the returned call sequence is a valid
topological order: every element of `calls[k].args` is strictly below
`len(given) + k`, so it references a given or the output of an earlier
call. -/
theorem solveTopologicalOrder (cache : Cache) (fuel : Nat) (out : Typ)
    (given : List Typ) (sets : List ProviderSetRef) (calls : List Call)
    (h : solve cache fuel out given sets = some (.ok calls)) :
    ∀ k c, calls[k]? = some c → ∀ a ∈ c.args, a < given.length + k := by
  obtain ⟨pm, index, index1, hdup, hpm, hseed, hv⟩ := solve_ok_inv _ _ _ _ _ _ h
  have hib : IndexBound given.length index 0 := by
    intro t m ht
    have := seedIndex_bound pm given 0 [] index hseed
      (by intro t m ht; simp [tmAt] at ht) t m ht
    omega
  have hinv := visit_bound pm given.length fuel [out] index [] index1 calls hv
    ⟨hib, by intro k c hk; simp at hk⟩
  exact hinv.2

/-- Witness for C1: the diamond scenario P1: () → 1, P2: (1) → 2,
P3: (1, 2) → 3, applied at the last call's second argument. -/
theorem solveTopologicalOrder_witness : (1 : Nat) < ([] : List Typ).length + 2 :=
  solveTopologicalOrder diamondCache 10 3 [] [refMod]
    [⟨"p", "P1", [], 1, false⟩, ⟨"p", "P2", [0], 2, false⟩, ⟨"p", "P3", [0, 1], 3, false⟩]
    (by decide) 2 ⟨"p", "P3", [0, 1], 3, false⟩ (by decide) 1 (by decide)

/-- C6: each type is materialized at most once: a successful `solve` result
never contains two calls with identical output types. -/
theorem solveMaterializeOnce (cache : Cache) (fuel : Nat) (out : Typ)
    (given : List Typ) (sets : List ProviderSetRef) (calls : List Call)
    (h : solve cache fuel out given sets = some (.ok calls)) :
    (calls.map Call.out).Nodup := by
  obtain ⟨pm, index, index1, hdup, hpm, hseed, hv⟩ := solve_ok_inv _ _ _ _ _ _ h
  exact (visit_outs pm given.length fuel [out] index [] index1 calls hv
    ⟨by simp, by simp⟩).1

/-- Witness for C6: in the diamond scenario type 1 is required both by P2 and
by P3, yet appears as a call output exactly once. -/
theorem solveMaterializeOnce_witness :
    (([⟨"p", "P1", [], 1, false⟩, ⟨"p", "P2", [0], 2, false⟩,
       ⟨"p", "P3", [0, 1], 3, false⟩] : List Call).map Call.out).Nodup :=
  solveMaterializeOnce diamondCache 10 3 [] [refMod] _ (by decide)

/-- C4: `solve` checks its preconditions before resolving: duplicate givens
fail with the duplicate-input error; a given that is also a catalog key fails
with the input-conflict error carrying the conflicting provider's provenance,
with no requirement that the given be needed for the output; and with
distinct givens disjoint from the catalog keys neither error occurs. -/
theorem solvePreconditions :
    (∀ (cache : Cache) (fuel : Nat) (out : Typ) (given : List Typ)
        (sets : List ProviderSetRef),
      ¬ given.Nodup →
      ∃ t, solve cache fuel out given sets = some (.error (.duplicateInput t))) ∧
    (∀ (cache : Cache) (fuel : Nat) (out : Typ) (given : List Typ)
        (sets : List ProviderSetRef) (pm : TypeMap ProviderInfo),
      given.Nodup →
      buildProviderMap0 cache fuel sets = some (.ok pm) →
      (∃ g ∈ given, (tmAt pm g).isSome) →
      ∃ t pp, tmAt pm t = some pp ∧ t ∈ given ∧
        solve cache fuel out given sets
          = some (.error (.inputConflict t pp.funcName pp.pos))) ∧
    (∀ (cache : Cache) (fuel : Nat) (out : Typ) (given : List Typ)
        (sets : List ProviderSetRef) (pm : TypeMap ProviderInfo) (e : GooseError),
      given.Nodup →
      buildProviderMap0 cache fuel sets = some (.ok pm) →
      (∀ g ∈ given, tmAt pm g = none) →
      solve cache fuel out given sets = some (.error e) →
      e.isGivenConflictErr = false) := by
  refine ⟨?_, ?_, ?_⟩
  · intro cache fuel out given sets hnd
    obtain ⟨t, ht⟩ := givenDup_some_of_not_nodup hnd
    exact ⟨t, by unfold solve; rw [ht]⟩
  · intro cache fuel out given sets pm hnd hpm hex
    obtain ⟨t, pp, h1, h2, h3⟩ := seedIndex_conflict pm given 0 [] hex
    refine ⟨t, pp, h1, h2, ?_⟩
    unfold solve
    rw [(givenDup_none_iff given).mpr hnd]
    simp only [hpm, h3]
  · intro cache fuel out given sets pm e hnd hpm hclean herr
    have := solve_clean_err cache fuel out given sets pm e hnd hpm hclean herr
    cases e <;> simp_all [isVisitErrKind, GooseError.isGivenConflictErr]

/-- Witness for C4 at concrete inputs: duplicate givens `[3, 3]`; the given
`9` shadowing the provider of type 9; and the clean run with given `[4]`
failing only with a missing-provider error. -/
theorem solvePreconditions_witness :
    (∃ t, solve errProviderCache 5 9 [3, 3] [refMod]
      = some (.error (.duplicateInput t))) ∧
    (∃ t pp, tmAt ([(9, ⟨"p", "PE", 1, [], 9, true⟩)] : TypeMap ProviderInfo) t
        = some pp ∧ t ∈ [9] ∧
      solve errProviderCache 5 9 [9] [refMod]
        = some (.error (.inputConflict t pp.funcName pp.pos))) ∧
    GooseError.isGivenConflictErr (.noProviderRoot 8) = false :=
  ⟨solvePreconditions.1 errProviderCache 5 9 [3, 3] [refMod] (by decide),
   solvePreconditions.2.1 errProviderCache 5 9 [9] [refMod]
     ([(9, ⟨"p", "PE", 1, [], 9, true⟩)] : TypeMap ProviderInfo) (by decide) (by decide)
     ⟨9, by decide, by decide⟩,
   solvePreconditions.2.2 errProviderCache 5 8 [4] [refMod]
     ([(9, ⟨"p", "PE", 1, [], 9, true⟩)] : TypeMap ProviderInfo) (.noProviderRoot 8)
     (by decide) (by decide) (by decide) (by decide)⟩

/-- C5: if the type being resolved already occurs earlier on the current
trail, `visit` fails with the cycle error naming that type; in particular the
two-provider cycle (1 needs 2, 2 needs 1, nothing given) makes `solve` fail
with the cycle error at every sufficient fuel rather than loop or succeed. -/
theorem solveCycleDetection :
    (∀ (pm : TypeMap ProviderInfo) (glen fuel : Nat) (trail : List Typ)
        (index : TypeMap Nat) (calls : List Call) (typ : Typ),
      trail.getLast? = some typ → tmAt index typ = none → typ ∈ trail.dropLast →
      visit pm glen (fuel + 1) trail index calls = some (.error (.cycle typ))) ∧
    (∀ n : Nat, solve cycleCache (n + 3) 1 [] [refMod]
      = some (.error (.cycle 1))) := by
  constructor
  · intro pm glen fuel trail index calls typ hl hidx hmem
    simp only [visit]
    unfold visitStep
    rw [hl]
    simp [hidx, hmem]
  · intro n
    rfl

/-- Witness for C5: the general cycle branch applied at a two-element trail,
and the concrete A/B cycle at fuel 3. -/
theorem solveCycleDetection_witness :
    visit [] 0 1 [5, 5] [] [] = some (.error (.cycle 5)) ∧
    solve cycleCache 3 1 [] [refMod] = some (.error (.cycle 1)) :=
  ⟨solveCycleDetection.1 [] 0 0 [5, 5] [] [] 5 rfl rfl (by decide),
   solveCycleDetection.2 0⟩

/-! ## Termination of the catalog merge -/

theorem length_filter_le_of_imp {α : Type} (l : List α) (p q : α → Bool)
    (h : ∀ x ∈ l, q x = true → p x = true) :
    (l.filter q).length ≤ (l.filter p).length := by
  induction l with
  | nil => simp
  | cons a l ih =>
    have ih' := ih (fun x hx => h x (List.mem_cons_of_mem _ hx))
    by_cases hq : q a = true
    · have hp := h a (by simp) hq
      rw [List.filter_cons_of_pos hq, List.filter_cons_of_pos hp]
      simpa using ih'
    · rw [List.filter_cons_of_neg (by simpa using hq)]
      by_cases hp : p a = true
      · rw [List.filter_cons_of_pos hp]
        simp only [List.length_cons]
        omega
      · rw [List.filter_cons_of_neg (by simpa using hp)]
        exact ih'

theorem length_filter_lt {α : Type} (l : List α) (p q : α → Bool) (x : α)
    (h : ∀ y ∈ l, q y = true → p y = true)
    (hx : x ∈ l) (hpx : p x = true) (hqx : q x = false) :
    (l.filter q).length < (l.filter p).length := by
  induction l with
  | nil => simp at hx
  | cons a l ih =>
    have hsub : ∀ y ∈ l, q y = true → p y = true :=
      fun y hy => h y (List.mem_cons_of_mem _ hy)
    rcases List.mem_cons.mp hx with he | hm
    · subst he
      rw [List.filter_cons_of_pos hpx, List.filter_cons_of_neg (by simp [hqx])]
      have := length_filter_le_of_imp l p q hsub
      simp only [List.length_cons]
      omega
    · by_cases hq : q a = true
      · have hp := h a (by simp) hq
        rw [List.filter_cons_of_pos hq, List.filter_cons_of_pos hp]
        simpa using ih hsub hm
      · rw [List.filter_cons_of_neg (by simpa using hq)]
        by_cases hp : p a = true
        · rw [List.filter_cons_of_pos hp]
          have := length_filter_le_of_imp l p q hsub
          simp only [List.length_cons]
          omega
        · rw [List.filter_cons_of_neg (by simpa using hp)]
          exact ih hsub hm

theorem remainingRefs_lt (cache : Cache) (visited : List ProviderSetRef)
    (r : ProviderSetRef) (hmem : r ∈ cache.map Prod.fst) (hnv : r ∉ visited) :
    remainingRefs cache (visited ++ [r]) < remainingRefs cache visited := by
  unfold remainingRefs
  apply length_filter_lt _ _ _ r
  · intro y _ hq
    simp only [decide_eq_true_eq, List.mem_append, List.mem_singleton] at hq ⊢
    exact fun hv => hq (Or.inl hv)
  · exact hmem
  · simpa using hnv
  · simp

theorem cacheGet_imports_le (cache : Cache) (r : ProviderSetRef) (s : ProviderSet)
    (h : cacheGet cache r = some s) : s.imports.length ≤ importsTotal cache := by
  induction cache with
  | nil => simp [cacheGet] at h
  | cons e rest ih =>
    obtain ⟨r', s'⟩ := e
    simp only [cacheGet] at h
    unfold importsTotal
    simp only [List.map_cons, List.sum_cons]
    by_cases he : r = r'
    · rw [if_pos he] at h
      injection h with h
      subst h
      omega
    · rw [if_neg he] at h
      have := ih h
      unfold importsTotal at this
      omega

theorem cacheGet_mem (cache : Cache) (r : ProviderSetRef) (s : ProviderSet)
    (h : cacheGet cache r = some s) : r ∈ cache.map Prod.fst := by
  induction cache with
  | nil => simp [cacheGet] at h
  | cons e rest ih =>
    obtain ⟨r', s'⟩ := e
    simp only [cacheGet] at h
    by_cases he : r = r'
    · subst he; simp
    · rw [if_neg he] at h
      simp only [List.map_cons, List.mem_cons]
      exact Or.inr (ih h)

theorem bpm_stable (cache : Cache) :
    ∀ m pm visited next f1 f2,
      bpmMeasure cache visited next ≤ m →
      bpmMeasure cache visited next < f1 →
      bpmMeasure cache visited next < f2 →
      buildProviderMapFuel cache f1 pm visited next
        = buildProviderMapFuel cache f2 pm visited next ∧
      (buildProviderMapFuel cache f1 pm visited next).isSome := by
  intro m
  induction m with
  | zero =>
    intro pm visited next f1 f2 hm h1 h2
    have hnext : next = [] := by
      have hlen : next.length = 0 := by unfold bpmMeasure at hm; omega
      exact List.length_eq_zero.mp hlen
    subst hnext
    obtain ⟨f1', rfl⟩ : ∃ k, f1 = k + 1 := ⟨f1 - 1, by omega⟩
    obtain ⟨f2', rfl⟩ : ∃ k, f2 = k + 1 := ⟨f2 - 1, by omega⟩
    simp [buildProviderMapFuel]
  | succ m ih =>
    intro pm visited next f1 f2 hm h1 h2
    obtain ⟨f1', rfl⟩ : ∃ k, f1 = k + 1 := ⟨f1 - 1, by omega⟩
    obtain ⟨f2', rfl⟩ : ∃ k, f2 = k + 1 := ⟨f2 - 1, by omega⟩
    cases next with
    | nil => simp [buildProviderMapFuel]
    | cons curr rest =>
      have hcons : bpmMeasure cache visited (curr :: rest)
          = bpmMeasure cache visited rest + 1 := by
        unfold bpmMeasure
        simp only [List.length_cons]
        omega
      simp only [buildProviderMapFuel]
      by_cases hv : curr.toRef ∈ visited
      · simp only [if_pos hv]
        exact ih pm visited rest f1' f2' (by omega) (by omega) (by omega)
      · simp only [if_neg hv]
        cases hc : cacheGet cache curr.toRef with
        | none =>
          simp only [hc]
          split <;> simp
        | some mod =>
          simp only [hc]
          cases ha : addProviders curr.fromRef mod.providers pm with
          | error e => simp [ha]
          | ok pm' =>
            simp only [ha]
            have himp : mod.imports.length ≤ importsTotal cache :=
              cacheGet_imports_le _ _ _ hc
            have hrem : remainingRefs cache (visited ++ [curr.toRef])
                < remainingRefs cache visited :=
              remainingRefs_lt _ _ _ (cacheGet_mem _ _ _ hc) hv
            have hmul : (importsTotal cache + 1)
                  * remainingRefs cache (visited ++ [curr.toRef])
                  + (importsTotal cache + 1)
                ≤ (importsTotal cache + 1) * remainingRefs cache visited := by
              rw [← Nat.mul_succ]
              exact Nat.mul_le_mul_left _ (Nat.succ_le_of_lt hrem)
            have hkey : bpmMeasure cache (visited ++ [curr.toRef])
                  (rest ++ mod.imports.map (fun ip => ⟨ip.1, curr.toRef, ip.2⟩)) + 2
                ≤ bpmMeasure cache visited (curr :: rest) := by
              unfold bpmMeasure
              simp only [List.length_append, List.length_cons, List.length_map]
              omega
            exact ih pm' (visited ++ [curr.toRef])
              (rest ++ mod.imports.map (fun ip => ⟨ip.1, curr.toRef, ip.2⟩))
              f1' f2' (by omega) (by omega) (by omega)

/-! ## Claim theorems: catalog merge -/

/-- C7: catalog merge terminates on every import graph, cyclic graphs and
repeated references included: with fuel one past the worklist measure the
loop finishes, and every larger fuel returns the same result — each
provider-set reference is processed at most once, so a set whose closure
reaches itself again is a no-op on its second visit rather than an infinite
loop or a self-conflict. -/
theorem buildProviderMapTerminates (cache : Cache) (sets : List ProviderSetRef) :
    (buildProviderMap0 cache
        (bpmMeasure cache [] (sets.map fun r => ⟨r, ⟨"", ""⟩, 0⟩) + 1) sets).isSome ∧
    ∀ f, bpmMeasure cache [] (sets.map fun r => ⟨r, ⟨"", ""⟩, 0⟩) < f →
      buildProviderMap0 cache f sets
        = buildProviderMap0 cache
            (bpmMeasure cache [] (sets.map fun r => ⟨r, ⟨"", ""⟩, 0⟩) + 1) sets := by
  constructor
  · exact (bpm_stable cache (bpmMeasure cache [] (sets.map fun r => ⟨r, ⟨"", ""⟩, 0⟩))
      [] [] (sets.map fun r => ⟨r, ⟨"", ""⟩, 0⟩) _ _
      le_rfl (Nat.lt_succ_self _) (Nat.lt_succ_self _)).2
  · intro f hf
    exact (bpm_stable cache (bpmMeasure cache [] (sets.map fun r => ⟨r, ⟨"", ""⟩, 0⟩))
      [] [] (sets.map fun r => ⟨r, ⟨"", ""⟩, 0⟩) f _
      le_rfl hf (Nat.lt_succ_self _)).1

/-- Witness for C7 at the self-importing set: the merge finishes at fuel 4
(the measure 3 plus one) and is stable at the larger fuel 9. -/
theorem buildProviderMapTerminates_witness :
    (buildProviderMap0 selfImportCache 4 [refMod]).isSome ∧
    buildProviderMap0 selfImportCache 9 [refMod]
      = buildProviderMap0 selfImportCache 4 [refMod] :=
  ⟨(buildProviderMapTerminates selfImportCache [refMod]).1,
   (buildProviderMapTerminates selfImportCache [refMod]).2 9 (by decide)⟩

/-- C2 (code bug): the merge conflict message's provenance branch is
inverted.  When the duplicate binding for type 7 is discovered in a set
reached via an import edge from the root set "a".Module, the code produces
the "added by injector" variant; when it is discovered in a set requested
directly as a root, the code produces the "imported by %v" variant carrying
the zero-valued (empty) set reference. -/
theorem mergeConflictProvenanceSwapped :
    buildProviderMap0 importConflictCache 5 [⟨"a", "Module"⟩]
      = some (.error (.multipleBindingsInjector 20 7 10)) ∧
    buildProviderMap0 rootConflictCache 5 [⟨"a", "Module"⟩, ⟨"b", "Module"⟩]
      = some (.error (.multipleBindingsImported 20 7 ⟨"", ""⟩ 10)) :=
  ⟨rfl, rfl⟩

/-! ## Claim theorems: the emitter -/

theorem injectCoreWith_err_not_sig (cache : Cache) (fuel : Nat)
    (tinfo : Typ → TypInfo) (cur : String) (imps : Imports) (n : Nat)
    (name : String) (params : List Param) (sets : List ProviderSetRef)
    (returnsErr : Bool) (outType : Typ) (t : String) (i : Imports) (m : Nat)
    (e : GooseError)
    (h : injectCoreWith cache fuel tinfo cur imps n name params sets returnsErr outType
      = some (t, i, m, some e)) :
    e.isSignatureErr = false := by
  unfold injectCoreWith at h
  split at h
  · exact absurd h (by simp)
  next e' hsol =>
    simp only [Option.some.injEq, Prod.mk.injEq] at h
    obtain ⟨-, -, -, h4⟩ := h
    subst h4
    have := solve_err_classified _ _ _ _ _ _ hsol
    rcases this with hx | hx | hx <;>
      (cases e' <;> simp_all [GooseError.isGivenConflictErr, isMergeErrKind,
        isVisitErrKind, GooseError.isSignatureErr])
  next calls hsol =>
    split at h
    next c hfind =>
      simp only [Option.some.injEq, Prod.mk.injEq] at h
      obtain ⟨-, -, -, h4⟩ := h
      subst h4
      rfl
    next hfind =>
      split at h
      next ps imps1 n1 hps =>
        split at h
        next ots imps2 n2 hts =>
          split at h
          · exact absurd h (by simp)
          next zv imps3 n3 hzv =>
            split at h
            next cs imps4 n4 hcs =>
              simp only [Option.some.injEq, Prod.mk.injEq] at h
              obtain ⟨-, -, -, h4⟩ := h
              exact absurd h4 (by simp)

/-- C8: if the solved plan contains a failure-capable call while the
injector's signature has a single result (so the injection may not fail),
`gen.inject` fails with the provider-may-fail error naming the first such
call's output type; the check precedes every buffer write, so the emitted
text is empty and the alias table and counter are untouched — nothing is
emitted for that injector. -/
theorem injectNoPartialEmission (cache : Cache) (fuel : Nat)
    (tinfo : Typ → TypInfo) (cur : String) (imps : Imports) (n : Nat)
    (name : String) (params : List Param) (outType : Typ)
    (sets : List ProviderSetRef) (calls : List Call) (c : Call)
    (hs : solve cache fuel outType (params.map Param.typ) sets = some (.ok calls))
    (hf : calls.find? (fun cl => cl.hasErr) = some c) :
    injectCore cache fuel tinfo cur imps n name params [outType] sets
      = some ("", imps, n, some (.providerErrNotAllowed name c.out)) := by
  have hred : injectCore cache fuel tinfo cur imps n name params [outType] sets
      = injectCoreWith cache fuel tinfo cur imps n name params sets false outType := rfl
  rw [hred]
  unfold injectCoreWith
  simp only [hs, Bool.not_false, Bool.and_true, hf]

/-- Witness for C8: the failure-capable provider of type 9 feeding a
single-result injector. -/
theorem injectNoPartialEmission_witness :
    injectCore errProviderCache 5 tinfoEmit "main" [] 0 "Inj" [] [9] [refMod]
      = some ("", [], 0, some (.providerErrNotAllowed "Inj" 9)) :=
  injectNoPartialEmission errProviderCache 5 tinfoEmit "main" [] 0 "Inj" [] 9 [refMod]
    [⟨"p", "PE", [], 9, true⟩] ⟨"p", "PE", [], 9, true⟩ (by decide) (by decide)

/-- C10: the signature switch of `gen.inject` rejects zero results, more
than two results, and a two-result signature whose second result is not the
predeclared `error` type, in each case without consulting the solver (the
outcome is identical for every fuel, including fuel 0, at which the solver
cannot answer) and without appending text or touching the alias state; and
once the signature is accepted — one result, or two results with the second
being `error` — no signature-shaped error is ever produced, so error
capability is derived solely from that second result. -/
theorem injectSignatureValidation :
    (∀ (cache : Cache) (fuel : Nat) (tinfo : Typ → TypInfo) (cur : String)
        (imps : Imports) (n : Nat) (name : String) (params : List Param)
        (sets : List ProviderSetRef),
      injectCore cache fuel tinfo cur imps n name params [] sets
        = some ("", imps, n, some (.injectNoReturn name))) ∧
    (∀ (cache : Cache) (fuel : Nat) (tinfo : Typ → TypInfo) (cur : String)
        (imps : Imports) (n : Nat) (name : String) (params : List Param)
        (sets : List ProviderSetRef) (r e : Typ),
      e ≠ errorType →
      injectCore cache fuel tinfo cur imps n name params [r, e] sets
        = some ("", imps, n, some (.injectBadSecondReturn name))) ∧
    (∀ (cache : Cache) (fuel : Nat) (tinfo : Typ → TypInfo) (cur : String)
        (imps : Imports) (n : Nat) (name : String) (params : List Param)
        (sets : List ProviderSetRef) (r e x : Typ) (rest : List Typ),
      injectCore cache fuel tinfo cur imps n name params (r :: e :: x :: rest) sets
        = some ("", imps, n, some (.injectTooManyReturns name))) ∧
    (∀ (cache : Cache) (fuel : Nat) (tinfo : Typ → TypInfo) (cur : String)
        (imps : Imports) (n : Nat) (name : String) (params : List Param)
        (sets : List ProviderSetRef) (r : Typ) (t : String) (i : Imports)
        (m : Nat) (e : GooseError),
      injectCore cache fuel tinfo cur imps n name params [r] sets
        = some (t, i, m, some e) → e.isSignatureErr = false) ∧
    (∀ (cache : Cache) (fuel : Nat) (tinfo : Typ → TypInfo) (cur : String)
        (imps : Imports) (n : Nat) (name : String) (params : List Param)
        (sets : List ProviderSetRef) (r : Typ) (t : String) (i : Imports)
        (m : Nat) (e : GooseError),
      injectCore cache fuel tinfo cur imps n name params [r, errorType] sets
        = some (t, i, m, some e) → e.isSignatureErr = false) := by
  refine ⟨fun _ _ _ _ _ _ _ _ _ => rfl, ?_, fun _ _ _ _ _ _ _ _ _ _ _ _ _ => rfl, ?_, ?_⟩
  · intro cache fuel tinfo cur imps n name params sets r e he
    simp only [injectCore]
    rw [if_neg he]
  · intro cache fuel tinfo cur imps n name params sets r t i m e h
    exact injectCoreWith_err_not_sig cache fuel tinfo cur imps n name params sets
      false r t i m e h
  · intro cache fuel tinfo cur imps n name params sets r t i m e h
    exact injectCoreWith_err_not_sig cache fuel tinfo cur imps n name params sets
      true r t i m e h

/-- Witness for C10 at concrete signatures, with fuel 0 demonstrating that
the rejection happens before any solving. -/
theorem injectSignatureValidation_witness :
    injectCore errProviderCache 0 tinfoEmit "main" [] 0 "Inj" [] [] [refMod]
      = some ("", [], 0, some (.injectNoReturn "Inj")) ∧
    injectCore errProviderCache 0 tinfoEmit "main" [] 0 "Inj" [] [9, 5] [refMod]
      = some ("", [], 0, some (.injectBadSecondReturn "Inj")) ∧
    injectCore errProviderCache 0 tinfoEmit "main" [] 0 "Inj" [] [9, 0, 3] [refMod]
      = some ("", [], 0, some (.injectTooManyReturns "Inj")) ∧
    GooseError.isSignatureErr (.providerErrNotAllowed "Inj" 9) = false :=
  ⟨injectSignatureValidation.1 errProviderCache 0 tinfoEmit "main" [] 0 "Inj" [] [refMod],
   injectSignatureValidation.2.1 errProviderCache 0 tinfoEmit "main" [] 0 "Inj" []
     [refMod] 9 5 (by decide),
   injectSignatureValidation.2.2.1 errProviderCache 0 tinfoEmit "main" [] 0 "Inj" []
     [refMod] 9 0 3 [],
   injectSignatureValidation.2.2.2.1 errProviderCache 5 tinfoEmit "main" [] 0 "Inj" []
     [refMod] 9 "" [] 0 (.providerErrNotAllowed "Inj" 9) (by decide)⟩

/-- C9 counterexample: a basic type carrying none of the boolean, numeric or
string info flags — `unsafe.Pointer`, which a provider or injector may
legally use as its output type — falls through every case of the `Basic`
branch and reaches the `panic("unreachable")`: the categorization is not
total over every type the front end can report. -/
theorem zeroValueNotTotal :
    zeroValueCat "unsafe.Pointer" (.basic ⟨false, false, false, false, false⟩)
      = none := rfl

/-- C9 (amended): the zero-value expression follows the structural category
of the underlying type exactly — array and struct yield the type's empty
literal, boolean yields `false`, numeric yields `0`, string yields the empty
string, and chan, interface, map, pointer, func and slice yield `nil` — and
the categorization is total on all of these; only a basic type with none of
the boolean/numeric/string flags (such as `unsafe.Pointer`) reaches the
fatal fallback. -/
theorem zeroValueCategorization :
    (∀ s, zeroValueCat s .array = some (s ++ "\x7b\x7d")) ∧
    (∀ s, zeroValueCat s .struct = some (s ++ "\x7b\x7d")) ∧
    (∀ s info, info.isBoolean = true → zeroValueCat s (.basic info) = some "false") ∧
    (∀ s info, info.isBoolean = false →
      (info.isInteger || info.isFloat || info.isComplex) = true →
      zeroValueCat s (.basic info) = some "0") ∧
    (∀ s info, info.isBoolean = false →
      (info.isInteger || info.isFloat || info.isComplex) = false →
      info.isString = true → zeroValueCat s (.basic info) = some "\"\"") ∧
    (∀ s info, (info.isBoolean || info.isInteger || info.isFloat ||
        info.isComplex || info.isString) = false →
      zeroValueCat s (.basic info) = none) ∧
    (∀ s, zeroValueCat s .chan = some "nil") ∧
    (∀ s, zeroValueCat s .iface = some "nil") ∧
    (∀ s, zeroValueCat s .map = some "nil") ∧
    (∀ s, zeroValueCat s .pointer = some "nil") ∧
    (∀ s, zeroValueCat s .signature = some "nil") ∧
    (∀ s, zeroValueCat s .slice = some "nil") := by
  refine ⟨fun s => rfl, fun s => rfl, ?_, ?_, ?_, ?_,
    fun s => rfl, fun s => rfl, fun s => rfl, fun s => rfl, fun s => rfl, fun s => rfl⟩
  · intro s info hb
    simp [zeroValueCat, hb]
  · intro s info hb hn
    simp [zeroValueCat, hb, hn]
  · intro s info hb hn hs
    simp only [Bool.or_eq_false_iff] at hn
    simp [zeroValueCat, hb, hn.1.1, hn.1.2, hn.2, hs]
  · intro s info hall
    simp only [Bool.or_eq_false_iff] at hall
    simp [zeroValueCat, hall.1.1.1.1, hall.1.1.1.2, hall.1.1.2, hall.1.2, hall.2]

/-- Witness for C9 (amended) at a numeric and a struct category. -/
theorem zeroValueCategorization_witness :
    zeroValueCat "int" (.basic ⟨false, true, false, false, false⟩) = some "0" ∧
    zeroValueCat "T" .struct = some ("T" ++ "\x7b\x7d") :=
  ⟨zeroValueCategorization.2.2.2.1 "int" ⟨false, true, false, false, false⟩ rfl rfl,
   zeroValueCategorization.2.1 "T"⟩

/-- C3 counterexample: the cross-unit alias table is not fresh per injector.
After emitting injector A (whose provider lives in package "pa"), the run's
generator state is `imports = [("pa", "pkg0")], n = 1`, as established by the
first conjunct; emitting injector B (provider in package "pb") from that
state produces different text (alias `pkg1`) than emitting it against a
fresh per-injector state (alias `pkg0`). -/
theorem emitterAliasSharedCounterexample :
    ((inject emitCache 10 tinfoEmit (newGen "main") "InjA" [] [1] [refModA]).map
        (fun r => (r.1.imports, r.1.n, r.2)))
      = some ([("pa", "pkg0")], 1, none) ∧
    (injectCore emitCache 10 tinfoEmit "main" [("pa", "pkg0")] 1 "InjB" [] [2]
        [refModB]).map (fun r => r.1)
      ≠ (injectCore emitCache 10 tinfoEmit "main" [] 0 "InjB" [] [2]
        [refModB]).map (fun r => r.1) := by
  constructor
  · decide
  · decide

/-- C3 (amended): the alias table and counter are per-run state shared by
all injectors of the run, while the buffer is append-only: the text an
injector contributes, the updated alias table and counter, and the error
depend only on the current package, the incoming alias table and counter,
and the injector's own inputs — never on the text emitted before.  Two
generators in the same alias state (in particular, when earlier injectors
introduced no new imports) emit identical text for the same injector, and
the local `v`-slot numbering always restarts at 0 for each injector. -/
theorem emitterAliasStatePerRun (cache : Cache) (fuel : Nat)
    (tinfo : Typ → TypInfo) (g1 g2 : Gen) (name : String)
    (params : List Param) (results : List Typ) (sets : List ProviderSetRef)
    (hcur : g1.currPackage = g2.currPackage)
    (himp : g1.imports = g2.imports) (hn : g1.n = g2.n) :
    (inject cache fuel tinfo g1 name params results sets = none ∧
     inject cache fuel tinfo g2 name params results sets = none) ∨
    ∃ text imps' n' err,
      inject cache fuel tinfo g1 name params results sets
        = some (⟨g1.currPackage, g1.buf ++ text, imps', n'⟩, err) ∧
      inject cache fuel tinfo g2 name params results sets
        = some (⟨g2.currPackage, g2.buf ++ text, imps', n'⟩, err) := by
  obtain ⟨c1, b1, i1, n1⟩ := g1
  obtain ⟨c2, b2, i2, n2⟩ := g2
  have hc : c1 = c2 := hcur
  have hi : i1 = i2 := himp
  have hm : n1 = n2 := hn
  subst hc; subst hi; subst hm
  unfold inject
  cases hic : injectCore cache fuel tinfo c1 i1 n1 name params results sets with
  | none => exact Or.inl ⟨rfl, rfl⟩
  | some r =>
    obtain ⟨text, r2⟩ := r
    obtain ⟨imps', r3⟩ := r2
    obtain ⟨n', err⟩ := r3
    exact Or.inr ⟨text, imps', n', err, rfl, rfl⟩

/-- Witness for C3 (amended): two generators differing only in their buffer
contents emit identical text for injector B. -/
theorem emitterAliasStatePerRun_witness :
    (inject emitCache 10 tinfoEmit ⟨"main", "", [], 0⟩ "InjB" [] [2] [refModB] = none ∧
     inject emitCache 10 tinfoEmit ⟨"main", "x", [], 0⟩ "InjB" [] [2] [refModB] = none) ∨
    ∃ text imps' n' err,
      inject emitCache 10 tinfoEmit ⟨"main", "", [], 0⟩ "InjB" [] [2] [refModB]
        = some (⟨"main", "" ++ text, imps', n'⟩, err) ∧
      inject emitCache 10 tinfoEmit ⟨"main", "x", [], 0⟩ "InjB" [] [2] [refModB]
        = some (⟨"main", "x" ++ text, imps', n'⟩, err) :=
  emitterAliasStatePerRun emitCache 10 tinfoEmit ⟨"main", "", [], 0⟩
    ⟨"main", "x", [], 0⟩ "InjB" [] [2] [refModB] rfl rfl rfl
